import Mathlib

/-!
The package slogmanager: a registry of named log writers

A verification development for the Go package `slogmanager`
(`writer.go`, `manager.go`).

Conventions of the embedding

* A Go pointer that may be nil is an `Option`: `none` is nil.  No function of
  the package writes through a `*Writer` or a `*writerConfig` after `NewWriter`
  has returned, so a `*Writer` is represented by the value it points to.
* A Go map is a reference: the `Manager` stores the address of the map object
  and the map contents live in a heap (`Proc.heap`).  The reference may be nil
  (`none`), as in the zero value `Manager{}`: a nil map reads as an empty map,
  `delete` on it does nothing and an assignment to one of its entries panics.
* A `*slog.Logger` carries the address it was allocated at, so that equality of
  two `Logger` values is identity of the pointers.
* The result of a call is an `Outcome`: it returned, it panicked (a nil
  dereference, a call of a nil function), it is blocked for ever on a mutex, or
  the runtime stopped the process (unlock of an unlocked mutex).
* `defer` is interpreted by `callFn`: deferred calls are stacked while the body
  runs and are run last-in-first-out when the body is left.
* Types and functions of `log/slog`, `sync` and `slog-multi` are outside the
  package; they appear as constructors (`Handler`, `LoggerHandler`) and as the
  small state machines `mu_Lock`, `mu_Unlock`, `mu_RLock`, `mu_RUnlock`, `slog.New`,
  `slog.SetDefault`.
-/

set_option linter.dupNamespace false

namespace slogmanager

/-! ## writer.go -/

/-- An `io.Writer` value, known only by its identity. -/
abbrev Sink := Nat

/-- A `slog.HandlerOptions` object, known only by its identity;
`*slog.HandlerOptions` is `Option HandlerOptions`. -/
abbrev HandlerOptions := Nat

/-- The struct `writerConfig`. -/
structure writerConfig where
  HandlerOpts : Option HandlerOptions
  UseJSON : Bool
deriving DecidableEq, Repr

/-- The struct `Writer`: `Config *writerConfig` and the embedded `io.Writer`. -/
structure Writer where
  Config : Option writerConfig
  Writer : Sink
deriving DecidableEq, Repr

/-- A non-nil value of the Go type `Option` (`func(*writerConfig)`): the
update it performs on the configuration it is handed. -/
abbrev WriterOption := writerConfig → writerConfig

/-- The option returned by `WithTextFormat()`. -/
def WithTextFormat : WriterOption :=
  fun o => { o with UseJSON := false }

/-- The option returned by `WithJSONFormat()`. -/
def WithJSONFormat : WriterOption :=
  fun o => { o with UseJSON := true }

/-- The option returned by `WithSlogHandlerOptions(h)`. -/
def WithSlogHandlerOptions (h : Option HandlerOptions) : WriterOption :=
  fun o => { o with HandlerOpts := h }

/-- The loop `for _, opt := range opts { opt(writerCfg) }` of `NewWriter`.
An element of the variadic argument is a func value, which may be nil
(`none`); calling it panics (`none` as result). -/
def applyOpts : List (Option WriterOption) → writerConfig → Option writerConfig
  | [], cfg => some cfg
  | none :: _, _ => none
  | some opt :: rest, cfg => applyOpts rest (opt cfg)

/-- The function `NewWriter(writer, opts...)`; `none` when the call panics. -/
def NewWriter (writer : Sink) (opts : List (Option WriterOption)) : Option Writer :=
  match applyOpts opts { HandlerOpts := none, UseJSON := false } with
  | none => none
  | some writerCfg => some { Config := some writerCfg, Writer := writer }

/-! ## manager.go: data -/

/-- A `slog.Handler` built by `createHandler`: `slog.NewJSONHandler(w, opts)` or
`slog.NewTextHandler(w, opts)`, with the `*Writer` it writes to and the
`*slog.HandlerOptions` it was given. -/
inductive Handler where
  | JSONHandler (w : Writer) (opts : Option HandlerOptions)
  | TextHandler (w : Writer) (opts : Option HandlerOptions)
deriving DecidableEq, Repr

/-- The handler of a logger: the one of the logger that was the process default
before the manager existed, or `slogmulti.Fanout(handlers...)`. -/
inductive LoggerHandler where
  | ambient
  | Fanout (handlers : List Handler)
deriving DecidableEq, Repr

/-- A `*slog.Logger`: its address and the handler it was built over. -/
structure slog.Logger where
  addr : Nat
  handler : LoggerHandler
deriving DecidableEq, Repr

/-- The contents of a `map[string]*Writer`. -/
abbrev GoMap := AList (fun _ : String => Option Writer)

/-- A `sync.RWMutex`: whether the write lock is held and how many read locks are. -/
structure RWMutex where
  w : Bool
  r : Nat
deriving DecidableEq, Repr

/-- The struct `Manager`; `writers` is the address of the map object, `none`
for the nil map. -/
structure Manager where
  mu : RWMutex
  writers : Option Nat
  logger : slog.Logger

/-- The state of the process outside the manager: the heap of map objects with
its next free address, the next free logger address, and the default logger of
`log/slog`. -/
structure Proc where
  heap : Nat → GoMap
  brk : Nat
  loggerBrk : Nat
  defaultLogger : slog.Logger

/-- The memory accesses that the mutex of the manager is meant to protect. -/
inductive Access where
  | mapWrite
  | mapRead
  | writersFieldRead
  | loggerWrite
  | loggerRead
deriving DecidableEq, Repr

/-- One access together with the state of `m.mu` at the moment it is made. -/
structure Event where
  access : Access
  mu : RWMutex
deriving DecidableEq, Repr

/-- The state: the process, the manager, and the history of accesses (a ghost
field, read by no operation). -/
structure State where
  proc : Proc
  m : Manager
  trace : List Event

/-- The contents read through a map reference: those of the map object at the
address, nothing for the nil map. -/
def Proc.deref (p : Proc) (ref : Option Nat) : GoMap :=
  match ref with
  | none => ∅
  | some a => p.heap a

/-- The contents of the map the manager refers to. -/
def State.writersMap (s : State) : GoMap :=
  s.proc.deref s.m.writers

/-- Appends an access to the history. -/
def State.log (s : State) (a : Access) : State :=
  { s with trace := s.trace ++ [{ access := a, mu := s.m.mu }] }

/-! ## Calls, panics and `defer` -/

/-- How a call ends. -/
inductive Outcome where
  | returned
  | panicked
  | blocked
  | fatal
deriving DecidableEq, Repr

/-- A call without result. -/
abbrev Action := State → State × Outcome

/-- A statement of a function body: a call, or a `defer` of a call. -/
inductive Stmt where
  | run (a : Action)
  | defer (a : Action)

/-- Runs the statements of a body in order, stacking the deferred calls; stops
at the first statement that does not return. -/
def execStmts : List Stmt → List Action → State → State × Outcome × List Action
  | [], ds, s => (s, Outcome.returned, ds)
  | Stmt.defer a :: rest, ds, s => execStmts rest (a :: ds) s
  | Stmt.run a :: rest, ds, s =>
    match a s with
    | (s1, Outcome.returned) => execStmts rest ds s1
    | (s1, o) => (s1, o, ds)

/-- Runs the stacked deferred calls, most recent first.  They also run while
the function is panicking; a goroutine that is blocked, or a stopped process,
runs nothing more.  A deferred call that does not return decides the outcome. -/
def runDeferred : List Action → State → Outcome → State × Outcome
  | [], s, o => (s, o)
  | a :: ds, s, o =>
    match o with
    | Outcome.blocked => (s, o)
    | Outcome.fatal => (s, o)
    | _ =>
      match a s with
      | (s1, Outcome.returned) => runDeferred ds s1 o
      | (s1, o1) => runDeferred ds s1 o1

/-- A call of a function with the given body and result expression: the result
is evaluated when the body is left, before the deferred calls run. -/
def callFn {α : Type} (body : List Stmt) (ret : State → α) (s : State) :
    State × Outcome × α :=
  let r := execStmts body [] s
  let d := runDeferred r.2.2 r.1 r.2.1
  (d.1, d.2, ret r.1)

/-- A call of a function without result. -/
def callProc (body : List Stmt) : Action :=
  fun s => ((callFn body (fun _ => ()) s).1, (callFn body (fun _ => ()) s).2.1)

/-! ## sync.RWMutex -/

/-- The call `m.mu.Lock()`: waits until no lock is held. -/
def mu_Lock : Action := fun s =>
  if s.m.mu.w = true ∨ 0 < s.m.mu.r then (s, Outcome.blocked)
  else ({ s with m := { s.m with mu := { s.m.mu with w := true } } }, Outcome.returned)

/-- The call `m.mu.Unlock()`: a fatal error when the write lock is not held. -/
def mu_Unlock : Action := fun s =>
  if s.m.mu.w = true then
    ({ s with m := { s.m with mu := { s.m.mu with w := false } } }, Outcome.returned)
  else (s, Outcome.fatal)

/-- The call `m.mu.RLock()`: waits while the write lock is held. -/
def mu_RLock : Action := fun s =>
  if s.m.mu.w = true then (s, Outcome.blocked)
  else ({ s with m := { s.m with mu := { s.m.mu with r := s.m.mu.r + 1 } } }, Outcome.returned)

/-- The call `m.mu.RUnlock()`: a fatal error when no read lock is held. -/
def mu_RUnlock : Action := fun s =>
  if 0 < s.m.mu.r then
    ({ s with m := { s.m with mu := { s.m.mu with r := s.m.mu.r - 1 } } }, Outcome.returned)
  else (s, Outcome.fatal)

/-! ## manager.go: operations -/

/-- An entry of a map: a name and the `*Writer` stored under it. -/
abbrev Entry := Sigma (fun _ : String => Option Writer)

/-- An order in which a `range` loop may visit the entries of a map.  Go leaves
the order open; every order visits each entry once. -/
structure RangeOrder where
  visit : List Entry → List Entry
  perm : ∀ l, (visit l).Perm l

/-- The order in which the entries are stored. -/
def RangeOrder.stored : RangeOrder :=
  { visit := fun l => l, perm := fun l => List.Perm.refl l }

/-- The reverse of the order in which the entries are stored. -/
def RangeOrder.backwards : RangeOrder :=
  { visit := fun l => l.reverse, perm := fun l => List.reverse_perm l }

/-- The function `createHandler(writer)`; `none` when `writer.Config.UseJSON`
dereferences a nil pointer. -/
def createHandler (writer : Option Writer) : Option Handler :=
  match writer with
  | none => none
  | some w =>
    match w.Config with
    | none => none
    | some cfg =>
      if cfg.UseJSON = true then some (Handler.JSONHandler w cfg.HandlerOpts)
      else some (Handler.TextHandler w cfg.HandlerOpts)

/-- The loop of `updateLogger`:
`for _, writer := range m.writers { handlers = append(handlers, createHandler(writer)) }`
over the entries in the order they are visited; `none` when a `createHandler`
panics. -/
def collectHandlers : List Entry → List Handler → Option (List Handler)
  | [], handlers => some handlers
  | e :: rest, handlers =>
    match createHandler e.2 with
    | none => none
    | some h => collectHandlers rest (handlers ++ [h])

/-- The call `slog.New(h)`: a logger at a fresh address. -/
def slog.New (h : LoggerHandler) (s : State) : State × slog.Logger :=
  ({ s with proc := { s.proc with loggerBrk := s.proc.loggerBrk + 1 } },
   { addr := s.proc.loggerBrk, handler := h })

/-- The call `slog.SetDefault(l)`. -/
def slog.SetDefault (l : slog.Logger) (s : State) : State :=
  { s with proc := { s.proc with defaultLogger := l } }

/-- The call `slog.Default()`. -/
def slog.Default (s : State) : slog.Logger :=
  s.proc.defaultLogger

/-- The method `updateLogger`. -/
def updateLogger (ord : RangeOrder) : Action := fun s =>
  let s1 := s.log Access.mapRead
  match collectHandlers (ord.visit s1.writersMap.entries) [] with
  | none => (s1, Outcome.panicked)
  | some handlers =>
    let r := slog.New (LoggerHandler.Fanout handlers) s1
    let s2 := r.1.log Access.loggerWrite
    let s3 := { s2 with m := { s2.m with logger := r.2 } }
    (slog.SetDefault r.2 s3, Outcome.returned)

/-- The statement `mp[name] = writer` on the map `ref` refers to: a panic
(assignment to entry in nil map) when `ref` is nil. -/
def mapassign (ref : Option Nat) (name : String) (writer : Option Writer) : Action := fun s =>
  match ref with
  | none => (s, Outcome.panicked)
  | some a =>
    ({ s with proc := { s.proc with
        heap := Function.update s.proc.heap a ((s.proc.heap a).insert name writer) } },
     Outcome.returned)

/-- The statement `delete(mp, name)` on the map `ref` refers to: nothing happens
when `ref` is nil. -/
def mapdelete (ref : Option Nat) (name : String) : Action := fun s =>
  match ref with
  | none => (s, Outcome.returned)
  | some a =>
    ({ s with proc := { s.proc with
        heap := Function.update s.proc.heap a ((s.proc.heap a).erase name) } },
     Outcome.returned)

/-- The function `New()`: a fresh empty map, and the logger that is the default
at that moment. -/
def New (p : Proc) : State :=
  { proc := { p with heap := Function.update p.heap p.brk ∅, brk := p.brk + 1 },
    m := { mu := { w := false, r := 0 }, writers := some p.brk, logger := p.defaultLogger },
    trace := [] }

/-- The method `Logger`. -/
def Logger (s : State) : State × Outcome × slog.Logger :=
  callFn
    [ Stmt.run mu_RLock,
      Stmt.defer mu_RUnlock,
      Stmt.run (fun s => (s.log Access.loggerRead, Outcome.returned)) ]
    (fun s => s.m.logger) s

/-- The method `Writers`: the result is the map reference the manager holds. -/
def Writers (s : State) : State × Outcome × Option Nat :=
  callFn
    [ Stmt.run mu_RLock,
      Stmt.defer mu_RUnlock,
      Stmt.run (fun s => (s.log Access.writersFieldRead, Outcome.returned)) ]
    (fun s => s.m.writers) s

/-- The method `AddWriter`. -/
def AddWriter (ord : RangeOrder) (name : String) (writer : Option Writer) : Action :=
  callProc
    [ Stmt.defer (updateLogger ord),
      Stmt.run mu_Lock,
      Stmt.defer mu_Unlock,
      Stmt.run (fun s => mapassign s.m.writers name writer (s.log Access.mapWrite)) ]

/-- The method `RemoveWriter`. -/
def RemoveWriter (ord : RangeOrder) (name : String) : Action :=
  callProc
    [ Stmt.defer (updateLogger ord),
      Stmt.run mu_Lock,
      Stmt.defer mu_Unlock,
      Stmt.run (fun s => mapdelete s.m.writers name (s.log Access.mapWrite)) ]

/-! ## Sequences of calls -/

/-- A call of `AddWriter` or of `RemoveWriter`. -/
inductive Call where
  | AddWriter (name : String) (writer : Option Writer)
  | RemoveWriter (name : String)

/-- A call together with the order in which its rebuild visits the map. -/
structure Step where
  call : Call
  ord : RangeOrder

/-- The action of a step. -/
def Step.exec (c : Step) : Action :=
  match c.call with
  | Call.AddWriter name writer => slogmanager.AddWriter c.ord name writer
  | Call.RemoveWriter name => slogmanager.RemoveWriter c.ord name

/-- Runs the steps one after the other.  A call that panics is recovered by the
caller, who goes on with the next call; after a call that never comes back
nothing runs. -/
def runCalls : List Step → State → State
  | [], s => s
  | c :: rest, s =>
    match c.exec s with
    | (s1, Outcome.returned) => runCalls rest s1
    | (s1, Outcome.panicked) => runCalls rest s1
    | (s1, _) => s1

/-- A process state to evaluate examples in: every address holds an empty map,
the default logger is the one `log/slog` starts with. -/
def Proc.example0 : Proc :=
  { heap := fun _ => ∅, brk := 0, loggerBrk := 1,
    defaultLogger := { addr := 0, handler := LoggerHandler.ambient } }

/-! ## Vocabulary of the properties -/

/-- An option as it is written in a call of `NewWriter`: one of the three
constructors of the package. -/
inductive OptionExpr where
  | WithTextFormat
  | WithJSONFormat
  | WithSlogHandlerOptions (h : Option HandlerOptions)
deriving DecidableEq, Repr

/-- The func value the expression evaluates to. -/
def OptionExpr.value : OptionExpr → Option WriterOption
  | OptionExpr.WithTextFormat => some slogmanager.WithTextFormat
  | OptionExpr.WithJSONFormat => some slogmanager.WithJSONFormat
  | OptionExpr.WithSlogHandlerOptions h => some (slogmanager.WithSlogHandlerOptions h)

/-- The format a format option asks for (`true` is JSON); `none` for an option
that is not a format option. -/
def OptionExpr.format? : OptionExpr → Option Bool
  | OptionExpr.WithTextFormat => some false
  | OptionExpr.WithJSONFormat => some true
  | OptionExpr.WithSlogHandlerOptions _ => none

/-- The argument of a handler-options option; `none` for another option. -/
def OptionExpr.handlerOpts? : OptionExpr → Option (Option HandlerOptions)
  | OptionExpr.WithSlogHandlerOptions h => some h
  | _ => none

/-- The format asked for by the last format option of the list, text if there
is none. -/
def lastFormat (es : List OptionExpr) : Bool :=
  ((es.filterMap OptionExpr.format?).getLast?).getD false

/-- The argument of the last handler-options option of the list, nil if there is
none. -/
def lastHandlerOpts (es : List OptionExpr) : Option HandlerOptions :=
  ((es.filterMap OptionExpr.handlerOpts?).getLast?).getD none

/-- Whether a handler is a `*slog.JSONHandler`. -/
def Handler.isJSON : Handler → Bool
  | Handler.JSONHandler _ _ => true
  | Handler.TextHandler _ _ => false

/-- The `io.Writer` a handler writes to. -/
def Handler.sink : Handler → Writer
  | Handler.JSONHandler w _ => w
  | Handler.TextHandler w _ => w

/-- The options a handler was built with. -/
def Handler.options : Handler → Option HandlerOptions
  | Handler.JSONHandler _ o => o
  | Handler.TextHandler _ o => o

/-- The mutex of the manager is free: no call on the manager is under way. -/
def State.free (s : State) : Prop :=
  s.m.mu = { w := false, r := 0 }

instance (s : State) : Decidable s.free :=
  inferInstanceAs (Decidable (s.m.mu = { w := false, r := 0 }))

/-- A `*Writer` that is not nil and whose `Config` is not nil. -/
def hasConfig (writer : Option Writer) : Bool :=
  match writer with
  | none => false
  | some w => w.Config.isSome

/-- The name a call is about. -/
def Call.name : Call → String
  | Call.AddWriter name _ => name
  | Call.RemoveWriter name => name

/-- A mapping from names to writers as the specification speaks of it:
`none` where the name is not registered. -/
abbrev SpecMap := String → Option (Option Writer)

/-- One call on a specification mapping: insert or replace for `AddWriter`,
erase for `RemoveWriter`. -/
def specStep (mp : SpecMap) : Call → SpecMap
  | Call.AddWriter name writer => Function.update mp name (some writer)
  | Call.RemoveWriter name => Function.update mp name none

/-- The fold of a sequence of calls over the empty mapping. -/
def specFold (calls : List Call) : SpecMap :=
  calls.foldl specStep (fun _ => none)

/-- The body of `AddWriter` and of `RemoveWriter` with the statement between the
`defer`s left open: both methods are instances of it. -/
def mutateCall (ord : RangeOrder) (f : Action) : Action :=
  callProc
    [ Stmt.defer (updateLogger ord),
      Stmt.run mu_Lock,
      Stmt.defer mu_Unlock,
      Stmt.run f ]

/-- The state with the write lock of the manager set to `b`. -/
def withMu (s : State) (b : Bool) : State :=
  { s with m := { s.m with mu := { s.m.mu with w := b } } }

/-- What a call does to the contents of the map: insert or replace for
`AddWriter`, erase for `RemoveWriter`. -/
def Call.effect : Call → GoMap → GoMap
  | Call.AddWriter name writer => fun mp => mp.insert name writer
  | Call.RemoveWriter name => fun mp => mp.erase name

/-- What a call of `AddWriter` or `RemoveWriter` whose statement on the map
returned leaves behind, in terms of the state `s` it started in with the mutex
free; `g` is what the statement did to the contents of the map. -/
structure MutateSpec (ord : RangeOrder) (g : GoMap → GoMap) (s : State)
    (r : State × Outcome) : Prop where
  writers : r.1.m.writers = s.m.writers
  writersMap : r.1.writersMap = g s.writersMap
  free : r.1.free
  outcome : r.2 = Outcome.returned ∨ r.2 = Outcome.panicked
  returned_iff : r.2 = Outcome.returned ↔ ∀ e ∈ (g s.writersMap).entries, hasConfig e.2 = true
  of_returned : r.2 = Outcome.returned →
    ∃ hs, collectHandlers (ord.visit (g s.writersMap).entries) [] = some hs
      ∧ r.1.m.logger = { addr := s.proc.loggerBrk, handler := LoggerHandler.Fanout hs }
      ∧ r.1.proc.defaultLogger = { addr := s.proc.loggerBrk, handler := LoggerHandler.Fanout hs }
      ∧ r.1.proc.loggerBrk = s.proc.loggerBrk + 1
  of_panicked : r.2 = Outcome.panicked →
    r.1.m.logger = s.m.logger ∧ r.1.proc.defaultLogger = s.proc.defaultLogger
  keeps_default : s.m.logger = s.proc.defaultLogger → r.1.m.logger = r.1.proc.defaultLogger

/-- The writer `NewWriter(sink, WithJSONFormat())` of the tests. -/
def exampleJSONWriter : Writer :=
  { Config := some { HandlerOpts := none, UseJSON := true }, Writer := 1 }

/-- The writer `NewWriter(sink, WithTextFormat())` of the tests. -/
def exampleTextWriter : Writer :=
  { Config := some { HandlerOpts := none, UseJSON := false }, Writer := 2 }

/-- The writer `NewWriter(sink)` returns: text format, no handler options. -/
def textWriter (sink : Sink) : Writer :=
  { Config := some { HandlerOpts := none, UseJSON := false }, Writer := sink }

/-- The manager of `TestRemoveWriter` before the removal: `json` and `text` are
registered. -/
def State.example2 : State :=
  (AddWriter RangeOrder.stored "text" (some exampleTextWriter)
    (AddWriter RangeOrder.stored "json" (some exampleJSONWriter) (New Proc.example0)).1).1

/-- The manager of `TestRemoveWriter` after `RemoveWriter("json")`. -/
def State.example3 : State :=
  (RemoveWriter RangeOrder.backwards "json" State.example2).1

/-- The last call of a sequence that is about `name`, if there is one. -/
def lastCall (name : String) (calls : List Call) : Option Call :=
  (calls.filter (fun c => decide (c.name = name))).getLast?

/-- The mapping a call of `Writers()` hands to its caller: the contents, when
the call has returned, of the map whose reference it returned. -/
def writersOf (s : State) : GoMap :=
  (Writers s).1.proc.deref (Writers s).2.2

/-- The zero value `Manager{}` in the example process: nil map, free mutex. -/
def State.zeroManager : State :=
  { proc := Proc.example0,
    m := { mu := { w := false, r := 0 }, writers := none, logger := Proc.example0.defaultLogger },
    trace := [] }

/-- The manager left by `AddWriter("x", nil)` on a fresh manager, the panic
recovered by the caller. -/
def State.exampleNil : State :=
  (AddWriter RangeOrder.stored "x" none (New Proc.example0)).1

/-! ## writer.go: properties -/

theorem getLast?_cons_getD {α : Type} (a : α) (l : List α) (d : α) :
    ((a :: l).getLast?).getD d = (l.getLast?).getD a := by
  cases l with
  | nil => rfl
  | cons b t => simp [List.getLast?_cons_cons, List.getLast?_eq_getLast]

theorem applyOpts_exprs (es : List OptionExpr) (cfg : writerConfig) :
    applyOpts (es.map OptionExpr.value) cfg
      = some { HandlerOpts := ((es.filterMap OptionExpr.handlerOpts?).getLast?).getD cfg.HandlerOpts,
               UseJSON := ((es.filterMap OptionExpr.format?).getLast?).getD cfg.UseJSON } := by
  induction es generalizing cfg with
  | nil => simp [applyOpts]
  | cons e rest ih =>
    cases e <;>
      simp [applyOpts, OptionExpr.value, OptionExpr.format?, OptionExpr.handlerOpts?, ih,
        getLast?_cons_getD, slogmanager.WithTextFormat, slogmanager.WithJSONFormat,
        slogmanager.WithSlogHandlerOptions]

/-- C3: `NewWriter` applies the options in order and the last option for a field
wins: the format is that of the last format option (text if none), the handler
options are the argument of the last `WithSlogHandlerOptions` (nil if none); a
format option leaves `HandlerOpts` as it is and `WithSlogHandlerOptions` leaves
`UseJSON` as it is. -/
theorem NewWriter_last_option_wins (sink : Sink) (es : List OptionExpr) :
    NewWriter sink (es.map OptionExpr.value)
        = some { Config := some { HandlerOpts := lastHandlerOpts es, UseJSON := lastFormat es },
                 Writer := sink }
      ∧ (∀ cfg : writerConfig,
          (WithTextFormat cfg).HandlerOpts = cfg.HandlerOpts
            ∧ (WithJSONFormat cfg).HandlerOpts = cfg.HandlerOpts
            ∧ ∀ h, (WithSlogHandlerOptions h cfg).UseJSON = cfg.UseJSON) := by
  refine ⟨?_, fun cfg => ⟨rfl, rfl, fun _ => rfl⟩⟩
  simp [NewWriter, applyOpts_exprs, lastHandlerOpts, lastFormat]

/-- C4: without options `NewWriter` wraps the sink with the text format and no
handler options, and `WithTextFormat()` alone gives the same writer. -/
theorem NewWriter_default (sink : Sink) :
    NewWriter sink []
        = some { Config := some { HandlerOpts := none, UseJSON := false }, Writer := sink }
      ∧ NewWriter sink [some WithTextFormat] = NewWriter sink [] := by
  exact ⟨rfl, rfl⟩

/-! ## createHandler -/

/-- C6: for a writer with a configuration `createHandler` returns a handler; it
is a JSON handler exactly when `Config.UseJSON` is true and a text handler
otherwise, and in both cases it writes to that writer and carries
`Config.HandlerOpts`. -/
theorem createHandler_format (w : Writer) (cfg : writerConfig) (hc : w.Config = some cfg) :
    ∃ h, createHandler (some w) = some h
      ∧ (h = Handler.JSONHandler w cfg.HandlerOpts ↔ cfg.UseJSON = true)
      ∧ (h = Handler.TextHandler w cfg.HandlerOpts ↔ cfg.UseJSON = false)
      ∧ (h.isJSON = true ↔ cfg.UseJSON = true)
      ∧ h.sink = w ∧ h.options = cfg.HandlerOpts := by
  cases hj : cfg.UseJSON <;>
    simp [createHandler, hc, hj, Handler.isJSON, Handler.sink, Handler.options]

/-- C6 at the JSON writer of the tests. -/
theorem createHandler_format_witness :
    exampleJSONWriter.Config = some { HandlerOpts := none, UseJSON := true }
      ∧ ∃ h, createHandler (some exampleJSONWriter) = some h
        ∧ (h = Handler.JSONHandler exampleJSONWriter none ↔ true = true)
        ∧ (h = Handler.TextHandler exampleJSONWriter none ↔ true = false)
        ∧ (h.isJSON = true ↔ true = true)
        ∧ h.sink = exampleJSONWriter ∧ h.options = none :=
  ⟨rfl, createHandler_format exampleJSONWriter { HandlerOpts := none, UseJSON := true } rfl⟩

/-! ## The rebuild -/

theorem collectHandlers_eq_some (l : List Entry) (acc hs : List Handler) :
    collectHandlers l acc = some hs
      ↔ ∃ tl, hs = acc ++ tl ∧ List.Forall₂ (fun h e => createHandler e.2 = some h) tl l := by
  induction l generalizing acc hs with
  | nil => simp [collectHandlers, eq_comm]
  | cons e rest ih =>
    cases hc : createHandler e.2 with
    | none => simp [collectHandlers, hc, List.forall₂_cons_right_iff]
    | some h =>
      simp only [collectHandlers, hc, ih, List.forall₂_cons_right_iff]
      constructor
      · rintro ⟨tl, rfl, htl⟩
        exact ⟨h :: tl, by simp, h, tl, by simp, htl, rfl⟩
      · rintro ⟨tl, rfl, a, tl1, ha, htl, rfl⟩
        simp only [Option.some.injEq] at ha
        subst ha
        exact ⟨tl1, by simp, htl⟩

theorem createHandler_isSome (writer : Option Writer) :
    (createHandler writer).isSome = hasConfig writer := by
  cases writer with
  | none => rfl
  | some w =>
    cases hc : w.Config with
    | none => simp [createHandler, hasConfig, hc]
    | some cfg => cases hj : cfg.UseJSON <;> simp [createHandler, hasConfig, hc, hj]

theorem collectHandlers_isSome (l : List Entry) (acc : List Handler) :
    (collectHandlers l acc).isSome = true ↔ ∀ e ∈ l, hasConfig e.2 = true := by
  induction l generalizing acc with
  | nil => simp [collectHandlers]
  | cons e rest ih =>
    have hc := createHandler_isSome e.2
    cases hh : createHandler e.2 with
    | none =>
      rw [hh] at hc
      simp [collectHandlers, hh, ← hc]
    | some h =>
      rw [hh] at hc
      simp [collectHandlers, hh, ih, ← hc]

theorem collectHandlers_visit_isSome (ord : RangeOrder) (l : List Entry) :
    (collectHandlers (ord.visit l) []).isSome = true ↔ ∀ e ∈ l, hasConfig e.2 = true := by
  rw [collectHandlers_isSome]
  constructor
  · intro h e he
    exact h e ((ord.perm l).mem_iff.mpr he)
  · intro h e he
    exact h e ((ord.perm l).mem_iff.mp he)

theorem updateLogger_frame (ord : RangeOrder) (s : State) :
    (updateLogger ord s).1.proc.heap = s.proc.heap
      ∧ (updateLogger ord s).1.proc.brk = s.proc.brk
      ∧ (updateLogger ord s).1.m.writers = s.m.writers
      ∧ (updateLogger ord s).1.m.mu = s.m.mu := by
  unfold updateLogger
  simp only []
  split <;> simp [State.log, slog.New, slog.SetDefault]

theorem updateLogger_writersMap (ord : RangeOrder) (s : State) :
    (updateLogger ord s).1.writersMap = s.writersMap := by
  obtain ⟨h1, _, h3, _⟩ := updateLogger_frame ord s
  unfold State.writersMap Proc.deref
  rw [h1, h3]

theorem updateLogger_outcome (ord : RangeOrder) (s : State) :
    (updateLogger ord s).2 = Outcome.returned ∨ (updateLogger ord s).2 = Outcome.panicked := by
  unfold updateLogger
  simp only []
  split <;> simp

theorem updateLogger_returned_iff (ord : RangeOrder) (s : State) :
    (updateLogger ord s).2 = Outcome.returned
      ↔ ∀ e ∈ s.writersMap.entries, hasConfig e.2 = true := by
  rw [← collectHandlers_visit_isSome ord]
  unfold updateLogger
  simp only []
  have hm : (s.log Access.mapRead).writersMap = s.writersMap := rfl
  rw [hm]
  split <;> simp_all

theorem updateLogger_of_returned (ord : RangeOrder) (s : State)
    (h : (updateLogger ord s).2 = Outcome.returned) :
    ∃ hs, collectHandlers (ord.visit s.writersMap.entries) [] = some hs
      ∧ (updateLogger ord s).1.m.logger
          = { addr := s.proc.loggerBrk, handler := LoggerHandler.Fanout hs }
      ∧ (updateLogger ord s).1.proc.defaultLogger
          = { addr := s.proc.loggerBrk, handler := LoggerHandler.Fanout hs }
      ∧ (updateLogger ord s).1.proc.loggerBrk = s.proc.loggerBrk + 1 := by
  have hm : (s.log Access.mapRead).writersMap = s.writersMap := rfl
  unfold updateLogger at h ⊢
  simp only [] at h ⊢
  rw [hm] at h ⊢
  cases hc : collectHandlers (ord.visit s.writersMap.entries) [] with
  | none => simp [hc] at h
  | some hs => exact ⟨hs, rfl, by simp [slog.New, slog.SetDefault, State.log]⟩

theorem updateLogger_of_panicked (ord : RangeOrder) (s : State)
    (h : (updateLogger ord s).2 = Outcome.panicked) :
    (updateLogger ord s).1.m.logger = s.m.logger
      ∧ (updateLogger ord s).1.proc.defaultLogger = s.proc.defaultLogger := by
  have hm : (s.log Access.mapRead).writersMap = s.writersMap := rfl
  unfold updateLogger at h ⊢
  simp only [] at h ⊢
  rw [hm] at h ⊢
  cases hc : collectHandlers (ord.visit s.writersMap.entries) [] with
  | none => simp [State.log]
  | some hs => simp [hc] at h

theorem updateLogger_keeps_default (ord : RangeOrder) (s : State)
    (h : s.m.logger = s.proc.defaultLogger) :
    (updateLogger ord s).1.m.logger = (updateLogger ord s).1.proc.defaultLogger := by
  rcases updateLogger_outcome ord s with ho | ho
  · obtain ⟨hs, _, h1, h2, _⟩ := updateLogger_of_returned ord s ho
    rw [h1, h2]
  · obtain ⟨h1, h2⟩ := updateLogger_of_panicked ord s ho
    rw [h1, h2, h]

/-! ## The two mutating methods -/

theorem AddWriter_eq_mutateCall (ord : RangeOrder) (name : String) (w : Option Writer) :
    AddWriter ord name w
      = mutateCall ord (fun s => mapassign s.m.writers name w (s.log Access.mapWrite)) := rfl

theorem RemoveWriter_eq_mutateCall (ord : RangeOrder) (name : String) :
    RemoveWriter ord name
      = mutateCall ord (fun s => mapdelete s.m.writers name (s.log Access.mapWrite)) := rfl

theorem mutateCall_blocked (ord : RangeOrder) (f : Action) (s : State)
    (h : ¬ s.free) : mutateCall ord f s = (s, Outcome.blocked) := by
  have h1 : s.m.mu.w = true ∨ 0 < s.m.mu.r := by
    unfold State.free at h
    rcases hmu : s.m.mu with ⟨w, r⟩
    rw [hmu] at h
    cases w <;> cases r <;> simp_all
  simp [mutateCall, callProc, callFn, execStmts, runDeferred, mu_Lock, h1]

theorem mu_Lock_free (s : State) (h : s.free) :
    mu_Lock s = (withMu s true, Outcome.returned) := by
  unfold State.free at h
  have h1 : ¬ (s.m.mu.w = true ∨ 0 < s.m.mu.r) := by simp [h]
  simp [mu_Lock, h1, withMu]

theorem mu_Unlock_locked (t : State) (h : t.m.mu.w = true) :
    mu_Unlock t = (withMu t false, Outcome.returned) := by
  simp [mu_Unlock, h, withMu]

theorem mutateCall_free (ord : RangeOrder) (f : Action) (s t : State) (o : Outcome)
    (h : s.free) (hx : f (withMu s true) = (t, o)) (hm : t.m = (withMu s true).m) :
    mutateCall ord f s
      = (match o with
          | Outcome.returned => updateLogger ord (withMu t false)
          | Outcome.panicked => ((updateLogger ord (withMu t false)).1, Outcome.panicked)
          | Outcome.blocked => (t, Outcome.blocked)
          | Outcome.fatal => (t, Outcome.fatal)) := by
  have hw : t.m.mu.w = true := by rw [hm]; rfl
  have hl := mu_Lock_free s h
  have hu := mu_Unlock_locked t hw
  have ho := updateLogger_outcome ord (withMu t false)
  generalize hy : updateLogger ord (withMu t false) = y at ho
  rcases y with ⟨y1, y2⟩
  simp only at ho
  cases o <;> rcases ho with ho | ho <;> subst ho <;>
    simp [mutateCall, callProc, callFn, execStmts, runDeferred, hl, hx, hu, hy]

theorem mutateCall_spec (ord : RangeOrder) (f : Action) (g : GoMap → GoMap) (s t : State)
    (h : s.free) (hx : f (withMu s true) = (t, Outcome.returned))
    (hm : t.m = (withMu s true).m) (hmap : t.writersMap = g s.writersMap)
    (hb : t.proc.loggerBrk = s.proc.loggerBrk)
    (hd : t.proc.defaultLogger = s.proc.defaultLogger) :
    MutateSpec ord g s (mutateCall ord f s) := by
  have e := mutateCall_free ord f s t Outcome.returned h hx hm
  simp only at e
  generalize hu : withMu t false = u at e
  have um : u.writersMap = g s.writersMap := by
    subst hu
    exact hmap
  have uw : u.m.writers = s.m.writers := by
    subst hu
    simp [withMu, hm]
  have ul : u.m.logger = s.m.logger := by
    subst hu
    simp [withMu, hm]
  have ud : u.proc.defaultLogger = s.proc.defaultLogger := by
    subst hu
    exact hd
  have ub : u.proc.loggerBrk = s.proc.loggerBrk := by
    subst hu
    exact hb
  have umu : u.m.mu = { w := false, r := 0 } := by
    unfold State.free at h
    subst hu
    simp [withMu, hm, h]
  obtain ⟨-, -, f3, f4⟩ := updateLogger_frame ord u
  rw [e]
  refine ⟨?_, ?_, ?_, updateLogger_outcome ord u, ?_, ?_, ?_, ?_⟩
  · rw [f3, uw]
  · rw [updateLogger_writersMap, um]
  · unfold State.free
    rw [f4, umu]
  · rw [updateLogger_returned_iff, um]
  · intro hr
    obtain ⟨hs, h1, h2, h3, h4⟩ := updateLogger_of_returned ord u hr
    rw [um] at h1
    rw [ub] at h2 h3 h4
    exact ⟨hs, h1, h2, h3, h4⟩
  · intro hp
    obtain ⟨h1, h2⟩ := updateLogger_of_panicked ord u hp
    rw [ul] at h1
    rw [ud] at h2
    exact ⟨h1, h2⟩
  · intro hd1
    exact updateLogger_keeps_default ord u (by rw [ul, ud, hd1])

theorem erase_empty (name : String) : (∅ : GoMap).erase name = ∅ :=
  AList.ext rfl

theorem AddWriter_spec (ord : RangeOrder) (name : String) (w : Option Writer) (s : State)
    (a : Nat) (h : s.free) (ha : s.m.writers = some a) :
    MutateSpec ord (fun mp => mp.insert name w) s (AddWriter ord name w s) := by
  rw [AddWriter_eq_mutateCall]
  have hwm : (withMu s true).m.writers = some a := ha
  refine mutateCall_spec ord _ _ s
    (mapassign (some a) name w ((withMu s true).log Access.mapWrite)).1 h ?_ ?_ ?_ rfl rfl
  · simp only [hwm]
    rfl
  · rfl
  · simp [mapassign, State.writersMap, Proc.deref, withMu, State.log, ha]

theorem RemoveWriter_spec (ord : RangeOrder) (name : String) (s : State) (h : s.free) :
    MutateSpec ord (fun mp => mp.erase name) s (RemoveWriter ord name s) := by
  rw [RemoveWriter_eq_mutateCall]
  cases ha : s.m.writers with
  | none =>
    have hwm : (withMu s true).m.writers = none := ha
    refine mutateCall_spec ord _ _ s ((withMu s true).log Access.mapWrite) h ?_ rfl ?_ rfl rfl
    · simp only [hwm]
      rfl
    · simp [State.writersMap, Proc.deref, withMu, State.log, ha, erase_empty]
  | some a =>
    have hwm : (withMu s true).m.writers = some a := ha
    refine mutateCall_spec ord _ _ s
      (mapdelete (some a) name ((withMu s true).log Access.mapWrite)).1 h ?_ ?_ ?_ rfl rfl
    · simp only [hwm]
      rfl
    · rfl
    · simp [mapdelete, State.writersMap, Proc.deref, withMu, State.log, ha]

theorem AddWriter_nil_map (ord : RangeOrder) (name : String) (w : Option Writer) (s : State)
    (h : s.free) (hn : s.m.writers = none) :
    (AddWriter ord name w s).2 = Outcome.panicked
      ∧ (AddWriter ord name w s).1.free
      ∧ (AddWriter ord name w s).1.m.writers = none := by
  have hwm : (withMu s true).m.writers = none := hn
  have e := mutateCall_free ord
    (fun s => mapassign s.m.writers name w (s.log Access.mapWrite)) s
    ((withMu s true).log Access.mapWrite) Outcome.panicked h
    (by simp only [hwm]; rfl) rfl
  rw [← AddWriter_eq_mutateCall] at e
  simp only at e
  obtain ⟨-, -, f3, f4⟩ := updateLogger_frame ord (withMu ((withMu s true).log Access.mapWrite) false)
  unfold State.free at h ⊢
  rw [e]
  refine ⟨rfl, ?_, ?_⟩
  · simp only [f4]
    simp [withMu, State.log, h]
  · simp only [f3]
    exact hn

theorem AddWriter_blocked (ord : RangeOrder) (name : String) (w : Option Writer) (s : State)
    (h : ¬ s.free) : AddWriter ord name w s = (s, Outcome.blocked) :=
  mutateCall_blocked ord _ s h

theorem RemoveWriter_blocked (ord : RangeOrder) (name : String) (s : State)
    (h : ¬ s.free) : RemoveWriter ord name s = (s, Outcome.blocked) :=
  mutateCall_blocked ord _ s h

/-- A call that returned started with the mutex free, and leaves behind what
`MutateSpec` says. -/
theorem Step_exec_returned (c : Call) (ord : RangeOrder) (s : State)
    (hr : (Step.exec { call := c, ord := ord } s).2 = Outcome.returned) :
    s.free ∧ MutateSpec ord c.effect s (Step.exec { call := c, ord := ord } s) := by
  by_cases h : s.free
  · refine ⟨h, ?_⟩
    cases c with
    | AddWriter name w =>
      cases ha : s.m.writers with
      | none =>
        have := (AddWriter_nil_map ord name w s h ha).1
        have hr1 : (AddWriter ord name w s).2 = Outcome.returned := hr
        rw [this] at hr1
        simp at hr1
      | some a => exact AddWriter_spec ord name w s a h ha
    | RemoveWriter name => exact RemoveWriter_spec ord name s h
  · exfalso
    cases c with
    | AddWriter name w =>
      have hr1 : (AddWriter ord name w s).2 = Outcome.returned := hr
      rw [AddWriter_blocked ord name w s h] at hr1
      simp at hr1
    | RemoveWriter name =>
      have hr1 : (RemoveWriter ord name s).2 = Outcome.returned := hr
      rw [RemoveWriter_blocked ord name s h] at hr1
      simp at hr1

/-- On a manager at rest whose map is not nil a call leaves behind what
`MutateSpec` says. -/
theorem Step_exec_spec (c : Step) (s : State) (a : Nat) (h : s.free)
    (ha : s.m.writers = some a) : MutateSpec c.ord c.call.effect s (c.exec s) := by
  rcases c with ⟨call, ord⟩
  cases call with
  | AddWriter name w => exact AddWriter_spec ord name w s a h ha
  | RemoveWriter name => exact RemoveWriter_spec ord name s h

/-! ## The two reading methods -/

theorem Logger_free (s : State) (h : s.free) :
    (Logger s).2 = (Outcome.returned, s.m.logger)
      ∧ (Logger s).1.proc = s.proc ∧ (Logger s).1.m = s.m := by
  unfold State.free at h
  rcases s with ⟨p, ⟨mu, wr, lg⟩, tr⟩
  simp only at h
  subst h
  simp [Logger, callFn, execStmts, runDeferred, mu_RLock, mu_RUnlock, State.log]

theorem Writers_free (s : State) (h : s.free) :
    (Writers s).2 = (Outcome.returned, s.m.writers)
      ∧ (Writers s).1.proc = s.proc ∧ (Writers s).1.m = s.m := by
  unfold State.free at h
  rcases s with ⟨p, ⟨mu, wr, lg⟩, tr⟩
  simp only at h
  subst h
  simp [Writers, callFn, execStmts, runDeferred, mu_RLock, mu_RUnlock, State.log]

theorem New_free (p : Proc) : (New p).free := rfl

theorem New_writersMap (p : Proc) : (New p).writersMap = ∅ := by
  simp [New, State.writersMap, Proc.deref]

theorem New_writers (p : Proc) : (New p).m.writers = some p.brk := rfl

/-! ## Entries after an assignment and after a delete -/

theorem mem_kerase_of_ne (name : String) (e : Entry) (l : List Entry)
    (he : e ∈ l) (hn : e.1 ≠ name) : e ∈ List.kerase name l := by
  induction l with
  | nil => simp at he
  | cons x xs ih =>
    by_cases hx : name = x.1
    · rw [List.kerase_cons_eq hx]
      rcases List.mem_cons.mp he with h1 | h1
      · exact absurd (by rw [h1, hx]) hn
      · exact h1
    · rw [List.kerase_cons_ne hx]
      rcases List.mem_cons.mp he with h1 | h1
      · exact List.mem_cons.mpr (Or.inl h1)
      · exact List.mem_cons.mpr (Or.inr (ih h1))

theorem mem_erase_entries (mp : GoMap) (name : String) (e : Entry) :
    e ∈ (mp.erase name).entries ↔ e ∈ mp.entries ∧ e.1 ≠ name := by
  constructor
  · intro he
    have hk : e ∈ List.kerase name mp.entries := he
    refine ⟨(List.kerase_sublist name mp.entries).subset hk, fun hc => ?_⟩
    have h1 : e.1 ∈ (List.kerase name mp.entries).keys := List.mem_keys_of_mem hk
    rw [hc] at h1
    exact List.not_mem_keys_kerase name mp.nodupKeys h1
  · rintro ⟨h1, h2⟩
    exact mem_kerase_of_ne name e mp.entries h1 h2

theorem mem_insert_entries (mp : GoMap) (name : String) (w : Option Writer) (e : Entry) :
    e ∈ (mp.insert name w).entries ↔ e = ⟨name, w⟩ ∨ (e ∈ mp.entries ∧ e.1 ≠ name) := by
  rw [AList.insert_entries, List.mem_cons]
  constructor
  · rintro (he | he)
    · exact Or.inl he
    · exact Or.inr ((mem_erase_entries mp name e).mp he)
  · rintro (he | he)
    · exact Or.inl he
    · exact Or.inr ((mem_erase_entries mp name e).mpr he)

theorem erase_of_not_mem (mp : GoMap) (name : String) (h : name ∉ mp) : mp.erase name = mp := by
  apply AList.ext
  exact List.kerase_of_not_mem_keys h

theorem valid_after_erase (mp : GoMap) (name : String) :
    (∀ e ∈ (mp.erase name).entries, hasConfig e.2 = true)
      ↔ ∀ e ∈ mp.entries, e.1 ≠ name → hasConfig e.2 = true := by
  constructor
  · intro h e he hn
    exact h e ((mem_erase_entries mp name e).mpr ⟨he, hn⟩)
  · intro h e he
    obtain ⟨h1, h2⟩ := (mem_erase_entries mp name e).mp he
    exact h e h1 h2

theorem valid_after_insert (mp : GoMap) (name : String) (w : Option Writer) :
    (∀ e ∈ (mp.insert name w).entries, hasConfig e.2 = true)
      ↔ hasConfig w = true ∧ ∀ e ∈ mp.entries, e.1 ≠ name → hasConfig e.2 = true := by
  constructor
  · intro h
    refine ⟨h ⟨name, w⟩ ((mem_insert_entries mp name w _).mpr (Or.inl rfl)), fun e he hn => ?_⟩
    exact h e ((mem_insert_entries mp name w e).mpr (Or.inr ⟨he, hn⟩))
  · rintro ⟨hw, h⟩ e he
    rcases (mem_insert_entries mp name w e).mp he with h1 | ⟨h1, h2⟩
    · rw [h1]
      exact hw
    · exact h e h1 h2

/-! ## RemoveWriter on the mapping -/

/-- C5 as stated fails: on the manager left at rest by a recovered
`AddWriter("x", nil)` the name `y` is not registered, and `RemoveWriter("y")`
leaves the mapping as it is but ends in a panic of the rebuild. -/
theorem RemoveWriter_absent_name_panics :
    State.exampleNil.free
      ∧ "y" ∉ State.exampleNil.writersMap
      ∧ (RemoveWriter RangeOrder.stored "y" State.exampleNil).1.writersMap.entries
          = State.exampleNil.writersMap.entries
      ∧ (RemoveWriter RangeOrder.stored "y" State.exampleNil).2 = Outcome.panicked := by
  decide

/-- C5, amended: `RemoveWriter(name)` on a manager at rest.  When `name` is not
registered the mapping is left as it is; when it is registered exactly that
entry goes and every other name keeps its writer.  The call ends by returning
or by a panic, and it returns exactly when every writer registered under
another name is non-nil with a non-nil `Config`. -/
theorem RemoveWriter_mapping (ord : RangeOrder) (s : State) (name : String) (h : s.free) :
    (name ∉ s.writersMap → (RemoveWriter ord name s).1.writersMap = s.writersMap)
      ∧ (name ∈ s.writersMap →
          name ∉ (RemoveWriter ord name s).1.writersMap
            ∧ (RemoveWriter ord name s).1.writersMap.keys = s.writersMap.keys.erase name
            ∧ ∀ other, other ≠ name →
                (RemoveWriter ord name s).1.writersMap.lookup other = s.writersMap.lookup other)
      ∧ ((RemoveWriter ord name s).2 = Outcome.returned
          ∨ (RemoveWriter ord name s).2 = Outcome.panicked)
      ∧ ((RemoveWriter ord name s).2 = Outcome.returned
          ↔ ∀ e ∈ s.writersMap.entries, e.1 ≠ name → hasConfig e.2 = true) := by
  have sp := RemoveWriter_spec ord name s h
  refine ⟨fun hn => ?_, fun _ => ⟨?_, ?_, ?_⟩, sp.outcome, ?_⟩
  · rw [sp.writersMap]
    exact erase_of_not_mem _ _ hn
  · rw [sp.writersMap, AList.mem_erase]
    exact fun hc => hc.1 rfl
  · rw [sp.writersMap, AList.keys_erase]
  · intro other ho
    rw [sp.writersMap]
    exact AList.lookup_erase_ne ho
  · rw [sp.returned_iff]
    exact valid_after_erase _ _

/-- C5, amended, on the manager of `TestRemoveWriter`, removing `json`. -/
theorem RemoveWriter_mapping_witness :
    State.example2.free
      ∧ ("json" ∈ State.example2.writersMap →
          "json" ∉ (RemoveWriter RangeOrder.backwards "json" State.example2).1.writersMap
            ∧ (RemoveWriter RangeOrder.backwards "json" State.example2).1.writersMap.keys
                = State.example2.writersMap.keys.erase "json"
            ∧ ∀ other, other ≠ "json" →
                (RemoveWriter RangeOrder.backwards "json" State.example2).1.writersMap.lookup other
                  = State.example2.writersMap.lookup other)
      ∧ "json" ∈ State.example2.writersMap
      ∧ (RemoveWriter RangeOrder.backwards "json" State.example2).1.writersMap.keys = ["text"]
      ∧ ((RemoveWriter RangeOrder.backwards "json" State.example2).2 = Outcome.returned
          ↔ ∀ e ∈ State.example2.writersMap.entries, e.1 ≠ "json" → hasConfig e.2 = true) :=
  ⟨by decide,
   (RemoveWriter_mapping RangeOrder.backwards State.example2 "json" (by decide)).2.1,
   by decide, by decide,
   (RemoveWriter_mapping RangeOrder.backwards State.example2 "json" (by decide)).2.2.2⟩

/-! ## The logger after a mutation -/

theorem map_some_of_forall₂ (hs : List Handler) (es : List Entry)
    (h : List.Forall₂ (fun hd e => createHandler e.2 = some hd) hs es) :
    hs.map some = es.map (fun e => createHandler e.2) := by
  induction h with
  | nil => rfl
  | cons hd _ ih => simp [hd, ih]

/-- C2: after a call of `AddWriter` or of `RemoveWriter` that returned,
`Logger()` returns a fan-out with one handler per entry of the mapping as it
now is: the handlers are, in the order the rebuild visited the map, the
`createHandler` of the writer of each entry; there are as many as registered
names; every handler is the `createHandler` of a writer registered under some
name. -/
theorem logger_fans_out_over_mapping (ord : RangeOrder) (c : Call) (s s1 : State)
    (h : Step.exec { call := c, ord := ord } s = (s1, Outcome.returned)) :
    (Logger s1).2.1 = Outcome.returned
      ∧ ∃ hs, (Logger s1).2.2.handler = LoggerHandler.Fanout hs
          ∧ List.Forall₂ (fun hd e => createHandler e.2 = some hd) hs
              (ord.visit s1.writersMap.entries)
          ∧ hs.length = s1.writersMap.keys.length
          ∧ (hs.map some).Perm (s1.writersMap.entries.map (fun e => createHandler e.2))
          ∧ ∀ hd ∈ hs, ∃ name w, s1.writersMap.lookup name = some w
              ∧ createHandler w = some hd := by
  have hr : (Step.exec { call := c, ord := ord } s).2 = Outcome.returned := by rw [h]
  obtain ⟨-, sp⟩ := Step_exec_returned c ord s hr
  rw [h] at sp
  obtain ⟨hs, hc, hl, -⟩ := sp.of_returned rfl
  have hm : c.effect s.writersMap = s1.writersMap := sp.writersMap.symm
  rw [hm] at hc
  obtain ⟨hL, -, -⟩ := Logger_free s1 sp.free
  obtain ⟨tl, htl, hf2⟩ := (collectHandlers_eq_some _ _ _).mp hc
  simp only [List.nil_append] at htl
  subst htl
  have hmap : hs.map some = (ord.visit s1.writersMap.entries).map (fun e => createHandler e.2) :=
    map_some_of_forall₂ _ _ hf2
  have hperm : (hs.map some).Perm (s1.writersMap.entries.map (fun e => createHandler e.2)) := by
    rw [hmap]
    exact (ord.perm _).map _
  refine ⟨by rw [hL], hs, by simp only [hL]; rw [hl], hf2, ?_, hperm, ?_⟩
  · have := hperm.length_eq
    simpa [AList.keys, List.keys] using this
  · intro hd hmem
    have h1 : some hd ∈ hs.map some := List.mem_map_of_mem _ hmem
    have h2 := hperm.mem_iff.mp h1
    obtain ⟨e, he, hce⟩ := List.mem_map.mp h2
    refine ⟨e.1, e.2, ?_, hce⟩
    exact AList.mem_lookup_iff.mpr he

/-- C2 on the manager of `TestRemoveWriter`, at the call `RemoveWriter("json")`. -/
theorem logger_fans_out_over_mapping_witness :
    Step.exec { call := Call.RemoveWriter "json", ord := RangeOrder.backwards } State.example2
        = (State.example3, Outcome.returned)
      ∧ (Logger State.example3).2.1 = Outcome.returned
      ∧ ∃ hs, (Logger State.example3).2.2.handler = LoggerHandler.Fanout hs
          ∧ List.Forall₂ (fun hd e => createHandler e.2 = some hd) hs
              (RangeOrder.backwards.visit State.example3.writersMap.entries)
          ∧ hs.length = State.example3.writersMap.keys.length
          ∧ (hs.map some).Perm (State.example3.writersMap.entries.map (fun e => createHandler e.2))
          ∧ ∀ hd ∈ hs, ∃ name w, State.example3.writersMap.lookup name = some w
              ∧ createHandler w = some hd :=
  ⟨Prod.ext rfl (by decide),
   logger_fans_out_over_mapping RangeOrder.backwards (Call.RemoveWriter "json") State.example2
     State.example3 (Prod.ext rfl (by decide))⟩

/-! ## Panics -/

/-- C7 as stated fails: on a fresh manager `AddWriter("x", nil)` panics in the
rebuild, and so does `AddWriter` of a writer whose `Config` is nil; on the zero
value `Manager{}` `AddWriter` of the writer `NewWriter(sink)` returns panics in
the assignment to the nil map. -/
theorem AddWriter_nil_writer_panics :
    (AddWriter RangeOrder.stored "x" none (New Proc.example0)).2 = Outcome.panicked
      ∧ (AddWriter RangeOrder.stored "x" (some { Config := none, Writer := 1 })
          (New Proc.example0)).2 = Outcome.panicked
      ∧ (AddWriter RangeOrder.stored "x" (some (textWriter 1)) State.zeroManager).2
          = Outcome.panicked := by
  decide

/-- C7, amended: on a manager at rest `AddWriter(name, writer)` returns exactly
when the map of the manager is not nil, `writer` is non-nil with a non-nil
`Config`, and so is every writer registered under another name;
`RemoveWriter(name)` returns exactly when every writer registered under another
name is non-nil with a non-nil `Config`.  A call that does not return panics,
and either way the manager is at rest again. -/
theorem mutation_returns (ord : RangeOrder) (s : State) (name : String)
    (writer : Option Writer) (h : s.free) :
    ((AddWriter ord name writer s).2 = Outcome.returned
        ↔ s.m.writers ≠ none ∧ hasConfig writer = true
          ∧ ∀ e ∈ s.writersMap.entries, e.1 ≠ name → hasConfig e.2 = true)
      ∧ ((RemoveWriter ord name s).2 = Outcome.returned
        ↔ ∀ e ∈ s.writersMap.entries, e.1 ≠ name → hasConfig e.2 = true)
      ∧ ((AddWriter ord name writer s).2 = Outcome.returned
          ∨ (AddWriter ord name writer s).2 = Outcome.panicked)
      ∧ ((RemoveWriter ord name s).2 = Outcome.returned
          ∨ (RemoveWriter ord name s).2 = Outcome.panicked)
      ∧ (AddWriter ord name writer s).1.free
      ∧ (RemoveWriter ord name s).1.free := by
  have sr := RemoveWriter_spec ord name s h
  have hrem : (RemoveWriter ord name s).2 = Outcome.returned
      ↔ ∀ e ∈ s.writersMap.entries, e.1 ≠ name → hasConfig e.2 = true := by
    rw [sr.returned_iff]
    exact valid_after_erase _ _
  cases ha : s.m.writers with
  | none =>
    obtain ⟨h1, h2, -⟩ := AddWriter_nil_map ord name writer s h ha
    refine ⟨?_, hrem, Or.inr h1, sr.outcome, h2, sr.free⟩
    rw [h1]
    simp
  | some a =>
    have sa := AddWriter_spec ord name writer s a h ha
    refine ⟨?_, hrem, sa.outcome, sr.outcome, sa.free, sr.free⟩
    rw [sa.returned_iff, valid_after_insert]
    simp

/-- C7, amended, on the manager of `TestRemoveWriter`: replacing `text` by the
JSON writer, and removing `text`. -/
theorem mutation_returns_witness :
    State.example2.free
      ∧ ((AddWriter RangeOrder.stored "text" (some exampleJSONWriter) State.example2).2
            = Outcome.returned
          ↔ State.example2.m.writers ≠ none ∧ hasConfig (some exampleJSONWriter) = true
            ∧ ∀ e ∈ State.example2.writersMap.entries, e.1 ≠ "text" → hasConfig e.2 = true)
      ∧ ((RemoveWriter RangeOrder.stored "text" State.example2).2 = Outcome.returned
          ↔ ∀ e ∈ State.example2.writersMap.entries, e.1 ≠ "text" → hasConfig e.2 = true)
      ∧ (AddWriter RangeOrder.stored "text" (some exampleJSONWriter) State.example2).2
          = Outcome.returned
      ∧ (RemoveWriter RangeOrder.stored "text" State.example2).2 = Outcome.returned :=
  ⟨by decide,
   (mutation_returns RangeOrder.stored State.example2 "text" (some exampleJSONWriter)
     (by decide)).1,
   (mutation_returns RangeOrder.stored State.example2 "text" (some exampleJSONWriter)
     (by decide)).2.1,
   by decide, by decide⟩

/-! ## Sequences of calls -/

theorem specFold_snoc (calls : List Call) (c : Call) :
    specFold (calls ++ [c]) = specStep (specFold calls) c := by
  simp [specFold, List.foldl_append]

theorem lastCall_snoc (name : String) (calls : List Call) (c : Call) :
    lastCall name (calls ++ [c]) = if c.name = name then some c else lastCall name calls := by
  unfold lastCall
  by_cases h : c.name = name
  · simp [List.filter_append, h]
  · simp [List.filter_append, h]

theorem specFold_eq_some_iff (calls : List Call) (name : String) (w : Option Writer) :
    specFold calls name = some w ↔ lastCall name calls = some (Call.AddWriter name w) := by
  induction calls using List.reverseRecOn with
  | nil => simp [specFold, lastCall]
  | append_singleton calls c ih =>
    rw [specFold_snoc, lastCall_snoc]
    cases c with
    | AddWriter n w1 =>
      by_cases hn : n = name
      · subst hn
        simp [specStep, Call.name]
      · have hn1 : name ≠ n := fun hc => hn hc.symm
        simp [specStep, Call.name, hn, Function.update_noteq hn1, ih]
    | RemoveWriter n =>
      by_cases hn : n = name
      · subst hn
        simp [specStep, Call.name]
      · have hn1 : name ≠ n := fun hc => hn hc.symm
        simp [specStep, Call.name, hn, Function.update_noteq hn1, ih]

theorem lookup_effect (c : Call) (mp : GoMap) (name : String) :
    (c.effect mp).lookup name = specStep (fun n => mp.lookup n) c name := by
  cases c with
  | AddWriter n w =>
    by_cases hn : name = n
    · subst hn
      simp [Call.effect, specStep, AList.lookup_insert]
    · simp [Call.effect, specStep, AList.lookup_insert_ne hn, Function.update_noteq hn]
  | RemoveWriter n =>
    by_cases hn : name = n
    · subst hn
      simp [Call.effect, specStep, AList.lookup_erase]
    · simp [Call.effect, specStep, AList.lookup_erase_ne hn, Function.update_noteq hn]

theorem runCalls_cons (c : Step) (rest : List Step) (s : State) (a : Nat) (h : s.free)
    (ha : s.m.writers = some a) :
    runCalls (c :: rest) s = runCalls rest (c.exec s).1 := by
  have sp := Step_exec_spec c s a h ha
  rcases hx : c.exec s with ⟨s1, o⟩
  rw [hx] at sp
  rcases sp.outcome with ho | ho
  · simp only at ho
    subst ho
    simp [runCalls, hx]
  · simp only at ho
    subst ho
    simp [runCalls, hx]

theorem runCalls_spec (steps : List Step) (s : State) (a : Nat) (h : s.free)
    (ha : s.m.writers = some a) :
    (runCalls steps s).free
      ∧ (runCalls steps s).m.writers = some a
      ∧ (∀ name, (runCalls steps s).writersMap.lookup name
          = (steps.map Step.call).foldl specStep (fun n => s.writersMap.lookup n) name)
      ∧ (s.m.logger = s.proc.defaultLogger →
          (runCalls steps s).m.logger = (runCalls steps s).proc.defaultLogger) := by
  induction steps generalizing s with
  | nil => exact ⟨h, ha, fun _ => rfl, fun hd => hd⟩
  | cons c rest ih =>
    have sp := Step_exec_spec c s a h ha
    rw [runCalls_cons c rest s a h ha]
    obtain ⟨i1, i2, i3, i4⟩ := ih (c.exec s).1 sp.free (by rw [sp.writers, ha])
    refine ⟨i1, i2, ?_, fun hd => i4 (sp.keeps_default hd)⟩
    intro name
    have hstep : (fun n => (c.exec s).1.writersMap.lookup n)
        = specStep (fun n => s.writersMap.lookup n) c.call := by
      funext n
      rw [sp.writersMap]
      exact lookup_effect c.call s.writersMap n
    rw [i3, List.map_cons, List.foldl_cons, hstep]

theorem writersOf_free (s : State) (h : s.free) : writersOf s = s.writersMap := by
  obtain ⟨h1, h2, -⟩ := Writers_free s h
  unfold writersOf State.writersMap
  rw [h1, h2]

/-- C1: after any sequence of `AddWriter` and `RemoveWriter` calls on a manager
made by `New()`, `Writers()` returns, and the mapping it returns is the fold of
the sequence over the empty mapping (insert or replace, erase): a name is a key
exactly when the last call about it is an `AddWriter`, and it then maps to the
writer of that call. -/
theorem Writers_after_calls (p : Proc) (steps : List Step) :
    (Writers (runCalls steps (New p))).2.1 = Outcome.returned
      ∧ (∀ name, (writersOf (runCalls steps (New p))).lookup name
          = specFold (steps.map Step.call) name)
      ∧ (∀ name, name ∈ writersOf (runCalls steps (New p))
          ↔ ∃ w, lastCall name (steps.map Step.call) = some (Call.AddWriter name w))
      ∧ (∀ name w, (writersOf (runCalls steps (New p))).lookup name = some w
          ↔ lastCall name (steps.map Step.call) = some (Call.AddWriter name w)) := by
  obtain ⟨hf, -, hl, -⟩ := runCalls_spec steps (New p) p.brk (New_free p) rfl
  have hl1 : ∀ name, (writersOf (runCalls steps (New p))).lookup name
      = specFold (steps.map Step.call) name := by
    intro name
    have hempty : (fun n => (New p).writersMap.lookup n) = fun _ => none := by
      funext n
      rw [New_writersMap]
      rfl
    rw [writersOf_free _ hf, hl name, hempty]
    rfl
  refine ⟨?_, hl1, ?_, ?_⟩
  · rw [(Writers_free _ hf).1]
  · intro name
    rw [← AList.lookup_isSome, Option.isSome_iff_exists]
    constructor
    · rintro ⟨w, hw⟩
      exact ⟨w, (specFold_eq_some_iff _ _ _).mp (by rw [← hl1, hw])⟩
    · rintro ⟨w, hw⟩
      exact ⟨w, by rw [hl1]; exact (specFold_eq_some_iff _ _ _).mpr hw⟩
  · intro name w
    rw [hl1]
    exact specFold_eq_some_iff _ _ _

/-- C10: in every state reached from `New()` by `AddWriter` and `RemoveWriter`
calls, `Logger()` returns, and what it returns is the default logger of the
process.  `New()` stores the logger that is the default at that moment, with an
empty mapping.  Every rebuild that completes installs one new logger, at a
fresh address and fanning out over the handlers it built, both as the logger of
the manager and as the default of the process; so does every call of
`AddWriter` or `RemoveWriter` that returns in such a state. -/
theorem Logger_is_default (p : Proc) (steps : List Step) :
    (Logger (runCalls steps (New p))).2.1 = Outcome.returned
      ∧ (Logger (runCalls steps (New p))).2.2 = slog.Default (Logger (runCalls steps (New p))).1
      ∧ (Logger (New p)).2.2 = p.defaultLogger
      ∧ (New p).writersMap = ∅
      ∧ (∀ (ord : RangeOrder) (t : State), (updateLogger ord t).2 = Outcome.returned →
          ∃ hs, collectHandlers (ord.visit t.writersMap.entries) [] = some hs
            ∧ (updateLogger ord t).1.m.logger
                = { addr := t.proc.loggerBrk, handler := LoggerHandler.Fanout hs }
            ∧ slog.Default (updateLogger ord t).1
                = { addr := t.proc.loggerBrk, handler := LoggerHandler.Fanout hs }
            ∧ (updateLogger ord t).1.proc.loggerBrk = t.proc.loggerBrk + 1)
      ∧ (∀ c : Step, (c.exec (runCalls steps (New p))).2 = Outcome.returned →
          ∃ hs, collectHandlers
                (c.ord.visit (c.exec (runCalls steps (New p))).1.writersMap.entries) []
                = some hs
            ∧ (Logger (c.exec (runCalls steps (New p))).1).2.2
                = { addr := (runCalls steps (New p)).proc.loggerBrk,
                    handler := LoggerHandler.Fanout hs }
            ∧ slog.Default (c.exec (runCalls steps (New p))).1
                = { addr := (runCalls steps (New p)).proc.loggerBrk,
                    handler := LoggerHandler.Fanout hs }) := by
  obtain ⟨hf, hw, -, hd⟩ := runCalls_spec steps (New p) p.brk (New_free p) rfl
  obtain ⟨h1, h2, -⟩ := Logger_free _ hf
  obtain ⟨h3, -, -⟩ := Logger_free _ (New_free p)
  refine ⟨by rw [h1], ?_, by rw [h3]; rfl, New_writersMap p, ?_, ?_⟩
  · rw [h1]
    unfold slog.Default
    rw [h2]
    exact hd rfl
  · intro ord t ht
    exact updateLogger_of_returned ord t ht
  · intro c hc
    have sp := Step_exec_spec c _ p.brk hf hw
    obtain ⟨hs, e1, e2, e3, -⟩ := sp.of_returned hc
    obtain ⟨hL, -, -⟩ := Logger_free _ sp.free
    refine ⟨hs, ?_, ?_, e3⟩
    · rw [sp.writersMap]
      exact e1
    · rw [hL]
      exact e2

/-- C10 on a fresh manager in the example process: `AddWriter("json", w)`
returns, and the logger of the manager and the default of the process are then
the same new logger over the JSON handler of `w`. -/
theorem Logger_is_default_witness :
    (Step.exec { call := Call.AddWriter "json" (some exampleJSONWriter),
                 ord := RangeOrder.stored } (runCalls [] (New Proc.example0))).2
        = Outcome.returned
      ∧ ∃ hs, collectHandlers
            (RangeOrder.stored.visit
              (Step.exec { call := Call.AddWriter "json" (some exampleJSONWriter),
                           ord := RangeOrder.stored }
                (runCalls [] (New Proc.example0))).1.writersMap.entries) []
            = some hs
        ∧ (Logger (Step.exec { call := Call.AddWriter "json" (some exampleJSONWriter),
                               ord := RangeOrder.stored }
                    (runCalls [] (New Proc.example0))).1).2.2
            = { addr := (runCalls [] (New Proc.example0)).proc.loggerBrk,
                handler := LoggerHandler.Fanout hs }
        ∧ slog.Default (Step.exec { call := Call.AddWriter "json" (some exampleJSONWriter),
                                    ord := RangeOrder.stored }
                          (runCalls [] (New Proc.example0))).1
            = { addr := (runCalls [] (New Proc.example0)).proc.loggerBrk,
                handler := LoggerHandler.Fanout hs } :=
  ⟨by decide,
   (Logger_is_default Proc.example0 []).2.2.2.2.2
     { call := Call.AddWriter "json" (some exampleJSONWriter), ord := RangeOrder.stored }
     (by decide)⟩

/-! ## The lock and the rebuild -/

theorem updateLogger_trace_returned (ord : RangeOrder) (t : State)
    (h : (updateLogger ord t).2 = Outcome.returned) :
    (updateLogger ord t).1.trace
      = t.trace ++ [{ access := Access.mapRead, mu := t.m.mu },
                    { access := Access.loggerWrite, mu := t.m.mu }] := by
  have hm : (t.log Access.mapRead).writersMap = t.writersMap := rfl
  unfold updateLogger at h ⊢
  simp only [] at h ⊢
  rw [hm] at h ⊢
  cases hc : collectHandlers (ord.visit t.writersMap.entries) [] with
  | none => simp [hc] at h
  | some hs => simp [State.log, slog.New, slog.SetDefault]

theorem updateLogger_trace_panicked (ord : RangeOrder) (t : State)
    (h : (updateLogger ord t).2 = Outcome.panicked) :
    (updateLogger ord t).1.trace = t.trace ++ [{ access := Access.mapRead, mu := t.m.mu }] := by
  have hm : (t.log Access.mapRead).writersMap = t.writersMap := rfl
  unfold updateLogger at h ⊢
  simp only [] at h ⊢
  rw [hm] at h ⊢
  cases hc : collectHandlers (ord.visit t.writersMap.entries) [] with
  | none => simp [State.log]
  | some hs => simp [hc] at h

theorem updateLogger_trace (ord : RangeOrder) (t : State) :
    (updateLogger ord t).1.trace
      = t.trace ++
          ({ access := Access.mapRead, mu := t.m.mu } ::
           if (updateLogger ord t).2 = Outcome.returned then
             [{ access := Access.loggerWrite, mu := t.m.mu }]
           else []) := by
  rcases updateLogger_outcome ord t with ho | ho
  · rw [updateLogger_trace_returned ord t ho, ho]
    simp
  · rw [updateLogger_trace_panicked ord t ho, ho]
    simp

theorem mutateCall_trace (ord : RangeOrder) (f : Action) (s t : State) (h : s.free)
    (hx : f (withMu s true) = (t, Outcome.returned)) (hm : t.m = (withMu s true).m)
    (ht : t.trace = s.trace ++ [{ access := Access.mapWrite, mu := { w := true, r := 0 } }]) :
    (mutateCall ord f s).1.trace
      = s.trace ++
          ({ access := Access.mapWrite, mu := { w := true, r := 0 } } ::
           { access := Access.mapRead, mu := { w := false, r := 0 } } ::
           if (mutateCall ord f s).2 = Outcome.returned then
             [{ access := Access.loggerWrite, mu := { w := false, r := 0 } }]
           else []) := by
  have e := mutateCall_free ord f s t Outcome.returned h hx hm
  simp only at e
  have umu : (withMu t false).m.mu = { w := false, r := 0 } := by
    unfold State.free at h
    simp [withMu, hm, h]
  have utr : (withMu t false).trace
      = s.trace ++ [{ access := Access.mapWrite, mu := { w := true, r := 0 } }] := ht
  rw [e, updateLogger_trace, umu, utr]
  simp

theorem AddWriter_trace (ord : RangeOrder) (name : String) (w : Option Writer) (s : State)
    (a : Nat) (h : s.free) (ha : s.m.writers = some a) :
    (AddWriter ord name w s).1.trace
      = s.trace ++
          ({ access := Access.mapWrite, mu := { w := true, r := 0 } } ::
           { access := Access.mapRead, mu := { w := false, r := 0 } } ::
           if (AddWriter ord name w s).2 = Outcome.returned then
             [{ access := Access.loggerWrite, mu := { w := false, r := 0 } }]
           else []) := by
  rw [AddWriter_eq_mutateCall]
  have hwm : (withMu s true).m.writers = some a := ha
  unfold State.free at h
  refine mutateCall_trace ord _ s
    (mapassign (some a) name w ((withMu s true).log Access.mapWrite)).1 h ?_ rfl ?_
  · simp only [hwm]
    rfl
  · simp [mapassign, withMu, State.log, h]

theorem RemoveWriter_trace (ord : RangeOrder) (name : String) (s : State)
    (a : Nat) (h : s.free) (ha : s.m.writers = some a) :
    (RemoveWriter ord name s).1.trace
      = s.trace ++
          ({ access := Access.mapWrite, mu := { w := true, r := 0 } } ::
           { access := Access.mapRead, mu := { w := false, r := 0 } } ::
           if (RemoveWriter ord name s).2 = Outcome.returned then
             [{ access := Access.loggerWrite, mu := { w := false, r := 0 } }]
           else []) := by
  rw [RemoveWriter_eq_mutateCall]
  have hwm : (withMu s true).m.writers = some a := ha
  unfold State.free at h
  refine mutateCall_trace ord _ s
    (mapdelete (some a) name ((withMu s true).log Access.mapWrite)).1 h ?_ rfl ?_
  · simp only [hwm]
    rfl
  · simp [mapdelete, withMu, State.log, h]

/-- C8 on the code: on a manager made by `New()`, during `AddWriter` of the
writer that `NewWriter(sink)` returns, the write to the mapping is made with the
write lock held, but the rebuild reads the mapping and stores the new logger
with the lock released; the same holds for `RemoveWriter`. -/
theorem rebuild_outside_lock (p : Proc) (ord : RangeOrder) (name : String) (sink : Sink) :
    (AddWriter ord name (some (textWriter sink)) (New p)).1.trace
        = [{ access := Access.mapWrite, mu := { w := true, r := 0 } },
           { access := Access.mapRead, mu := { w := false, r := 0 } },
           { access := Access.loggerWrite, mu := { w := false, r := 0 } }]
      ∧ (RemoveWriter ord name (New p)).1.trace
        = [{ access := Access.mapWrite, mu := { w := true, r := 0 } },
           { access := Access.mapRead, mu := { w := false, r := 0 } },
           { access := Access.loggerWrite, mu := { w := false, r := 0 } }] := by
  have ha : (AddWriter ord name (some (textWriter sink)) (New p)).2 = Outcome.returned := by
    rw [(AddWriter_spec ord name _ (New p) p.brk (New_free p) rfl).returned_iff,
      valid_after_insert, New_writersMap]
    exact ⟨rfl, by simp⟩
  have hr : (RemoveWriter ord name (New p)).2 = Outcome.returned := by
    rw [(RemoveWriter_spec ord name (New p) (New_free p)).returned_iff,
      valid_after_erase, New_writersMap]
    simp
  constructor
  · have := AddWriter_trace ord name (some (textWriter sink)) (New p) p.brk (New_free p) rfl
    rw [ha] at this
    simpa [New] using this
  · have := RemoveWriter_trace ord name (New p) p.brk (New_free p) rfl
    rw [hr] at this
    simpa [New] using this

/-! ## The map handed out by Writers -/

/-- C9 on the code: `Writers()` returns the map of the manager itself.  On a
manager made by `New()`, the mapping obtained from `Writers()` has no entry for
`name`; after a later `AddWriter(name, w)` the same mapping has one; and an
assignment the caller makes in the returned mapping registers the writer in the
manager. -/
theorem Writers_returns_the_live_map (p : Proc) (ord : RangeOrder) (name : String)
    (w : Option Writer) :
    (Writers (New p)).2.2 = (New p).m.writers
      ∧ ((Writers (New p)).1.proc.deref (Writers (New p)).2.2).lookup name = none
      ∧ ((AddWriter ord name w (Writers (New p)).1).1.proc.deref
          (Writers (New p)).2.2).lookup name = some w
      ∧ (Writers (New p)).1.writersMap.lookup name = none
      ∧ (mapassign (Writers (New p)).2.2 name w (Writers (New p)).1).1.writersMap.lookup name
          = some w := by
  obtain ⟨h1, h2, h3⟩ := Writers_free (New p) (New_free p)
  have hfree : (Writers (New p)).1.free := by
    unfold State.free
    rw [h3]
    rfl
  have hmw : (Writers (New p)).1.m.writers = some p.brk := by rw [h3]; rfl
  have hmap : (Writers (New p)).1.writersMap = ∅ := by
    unfold State.writersMap
    rw [h2, h3]
    exact New_writersMap p
  have hw : (Writers (New p)).2.2 = (Writers (New p)).1.m.writers := by rw [h1, h3]
  have sa := AddWriter_spec ord name w _ p.brk hfree hmw
  refine ⟨by rw [h1], ?_, ?_, ?_, ?_⟩
  · rw [hw]
    change (Writers (New p)).1.writersMap.lookup name = none
    rw [hmap]
    rfl
  · rw [hw, ← sa.writers]
    change (AddWriter ord name w (Writers (New p)).1).1.writersMap.lookup name = some w
    rw [sa.writersMap]
    exact AList.lookup_insert _
  · rw [hmap]
    rfl
  · rw [hw, hmw]
    simp [mapassign, State.writersMap, Proc.deref, hmw, AList.lookup_insert]

end slogmanager
